import Mathlib

/-!
Verification of the streaming process-execution core of the deployment
server (source file: server.js, the version with line-oriented output
processing).  Strings from the JavaScript source are embedded as
`List Char`; the stateful parts (stream buffers, the process registry,
the promise outcome of a command and of a deployment) are embedded as
pure functions that thread the state explicitly and return the list of
emitted events.
-/

/-- Character class used by the JavaScript `String.prototype.trim`:
ASCII whitespace, NBSP, the Unicode space separators, the line and
paragraph separators, and the BOM. -/
def isJsWs (c : Char) : Bool :=
  c = ' ' || c = '\t' || c = '\n' || c = '\x0b' || c = '\x0c' || c = '\r' ||
  c = ' ' || c = ' ' || (0x2000 ≤ c.toNat && c.toNat ≤ 0x200A) ||
  c = ' ' || c = ' ' || c = ' ' || c = ' ' ||
  c = '　' || c = '﻿'

/-- Model of the JavaScript `s.trim()`: drop the whitespace prefix and the
whitespace suffix. -/
def jsTrim (l : List Char) : List Char :=
  ((l.dropWhile isJsWs).reverse.dropWhile isJsWs).reverse

/-- Model of the JavaScript `s.split(sep)` for a one-character separator:
the result is the list of separated segments and is never empty. -/
def splitOnChar (sep : Char) : List Char → List (List Char)
  | [] => [[]]
  | c :: cs =>
    if c = sep then [] :: splitOnChar sep cs
    else
      match splitOnChar sep cs with
      | [] => [[c]]
      | l :: ls => (c :: l) :: ls

/-- Model of the JavaScript `haystack.includes(needle)`: substring test. -/
def containsSeq (n : List Char) : List Char → Bool
  | [] => n.isEmpty
  | c :: cs => n.isPrefixOf (c :: cs) || containsSeq n cs

/-- Does the regular expression `\[\d+\/\d+\]` match at the head of the
list: an opening bracket, one or more digits, a slash, one or more
digits, a closing bracket.  Digits are taken greedily; since the
characters after each `\d+` in the pattern are not digits, greedy
matching is equivalent to the backtracking regular expression engine. -/
def fracHere (l : List Char) : Bool :=
  (l.head? == some '[') &&
  (let r := l.tail
   !(r.takeWhile Char.isDigit).isEmpty &&
   ((r.dropWhile Char.isDigit).head? == some '/') &&
   (let r2 := (r.dropWhile Char.isDigit).tail
    !(r2.takeWhile Char.isDigit).isEmpty &&
    ((r2.dropWhile Char.isDigit).head? == some ']')))

/-- Model of the unanchored regular expression test
`/\[\d+\/\d+\]/.test(line)`: does the pattern match at some position. -/
def hasFrac : List Char → Bool
  | [] => false
  | c :: cs => fracHere (c :: cs) || hasFrac cs

/-- The light shade block glyph used by progress bars. -/
def blockLight : Char := '░'

/-- The full block glyph used by progress bars. -/
def blockFull : Char := '█'

/-- The three-dot literal tested by the classifier. -/
def dots : List Char := ('.' :: '.' :: '.' :: [])

/-- The output classifier: the `isProgress` expression of `processOutput`
in the source, deciding whether a line is a progress update.  It is the
disjunction of five `includes`/regex tests, in source order. -/
def classify (line : List Char) : Bool :=
  containsSeq (blockLight :: []) line || containsSeq (blockFull :: []) line ||
  containsSeq ('%' :: []) line || containsSeq dots line || hasFrac line

/-- The five event types of the source `outputType` field. -/
inductive OutputType
  | stdout
  | stderr
  | system
  | success
  | error
deriving DecidableEq

/-- One `commandOutput` event as emitted by `io.emit` in the source; the
two optional fields are `none` when the corresponding property is absent
from the emitted object. -/
structure CommandEvent where
  commandId : String
  output : List Char
  outputType : OutputType
  isProgress : Option Bool := none
  replaceLast : Option Bool := none
deriving DecidableEq

/-- The events emitted by the `lines.forEach` loop of `processOutput`: one
event per complete line whose trim is nonempty, with the classifier
deciding `isProgress` and no `replaceLast` property. -/
def mkLineEvents (commandId : String) (tp : OutputType) (ls : List (List Char)) :
    List CommandEvent :=
  ls.filterMap fun line =>
    if jsTrim line ≠ [] then
      some { commandId := commandId, output := line, outputType := tp,
             isProgress := some (classify line) }
    else none

/-- The event emitted for the trailing pending line of `processOutput`,
when its trim is nonempty: `isProgress` and `replaceLast` are both set. -/
def mkPendingEvents (commandId : String) (tp : OutputType) (lastLine : List Char) :
    List CommandEvent :=
  if jsTrim lastLine ≠ [] then
    [{ commandId := commandId, output := lastLine, outputType := tp,
       isProgress := some true, replaceLast := some true }]
  else []

/-- Model of `processOutput(buffer, data, type, commandId)` in the source:
append the chunk to the buffer, split on the carriage return, emit one
event per complete nonblank line and one flagged event for the nonblank
pending line, and return the pending line as the new buffer.  The first
component is the list of emitted events, the second the returned buffer. -/
def processOutput (buffer data : List Char) (tp : OutputType) (commandId : String) :
    List CommandEvent × List Char :=
  let parts := splitOnChar '\r' (buffer ++ data)
  let lines := parts.dropLast
  let lastLine := parts.getLastD []
  (mkLineEvents commandId tp lines ++ mkPendingEvents commandId tp lastLine, lastLine)

/-- One emission on the socket: either a `commandOutput` event or a
`commandFinished` event. -/
inductive Emit
  | output (e : CommandEvent)
  | finished (commandId : String) (exitCode : Int)
deriving DecidableEq

/-- One asynchronous data callback of a running child process, on either
of its two streams. -/
inductive ChunkEvent
  | stdoutData (data : List Char)
  | stderrData (data : List Char)
deriving DecidableEq

/-- The payload of a spawn-level `error` event of the child process. -/
structure SpawnErrorInfo where
  message : List Char
deriving DecidableEq

/-- The observable behaviour of one spawned child process: either it
produces a sequence of stream chunks and then closes with an exit code,
or it fails at spawn level (no output, no close). -/
inductive ProcBehavior
  | closes (chunks : List ChunkEvent) (code : Int)
  | spawnErr (e : SpawnErrorInfo)

/-- The settled state of the promise returned by `executeCommand`:
resolution with the exit code, rejection with the nonzero-exit error, or
rejection with the spawn-level error. -/
inductive RunResult
  | resolved (code : Int)
  | rejectedExit (code : Int)
  | rejectedSpawn (e : SpawnErrorInfo)
deriving DecidableEq

/-- The `activeProcesses` map: command identifiers to process handles
(handles are abstracted to numeric tokens). -/
abbrev Registry := List (String × Nat)

/-- Model of `Map.prototype.get`. -/
def mapGet (m : Registry) (k : String) : Option Nat :=
  m.lookup k

/-- Model of `Map.prototype.set`: update the existing key, else append. -/
def mapSet (m : Registry) (k : String) (v : Nat) : Registry :=
  if (m.lookup k).isSome then
    m.map fun kv => if kv.1 = k then (k, v) else kv
  else m ++ [(k, v)]

/-- Model of `Map.prototype.delete`. -/
def mapDelete (m : Registry) (k : String) : Registry :=
  m.filter fun kv => kv.1 != k

/-- The `data` callbacks of one run, folded over the two independent
stream buffers exactly as the two `childProcess` handlers do: each chunk
is routed through `processOutput` on the buffer of its own stream.
Returns the emitted events in arrival order and both final buffers. -/
def runChunks (commandId : String) :
    List ChunkEvent → List Char → List Char → List CommandEvent × List Char × List Char
  | [], so, se => ([], so, se)
  | ChunkEvent.stdoutData d :: rest, so, se =>
    let p := processOutput so d OutputType.stdout commandId
    let q := runChunks commandId rest p.2 se
    (p.1 ++ q.1, q.2.1, q.2.2)
  | ChunkEvent.stderrData d :: rest, so, se =>
    let p := processOutput se d OutputType.stderr commandId
    let q := runChunks commandId rest so p.2
    (p.1 ++ q.1, q.2.1, q.2.2)

/-- The event emitted before spawning when a description is supplied. -/
def descEmits (description : Option (List Char)) (commandId : String) : List Emit :=
  match description with
  | some d =>
    [Emit.output { commandId := commandId, output := d ++ ('\n' :: []),
                   outputType := OutputType.system }]
  | none => []

/-- The close-time flush of one stream buffer in the `close` handler: when
the buffer trim is nonempty, one event with a newline appended and with
neither `isProgress` nor `replaceLast` set. -/
def closeFlush (commandId : String) (tp : OutputType) (buffer : List Char) :
    List CommandEvent :=
  if jsTrim buffer ≠ [] then
    [{ commandId := commandId, output := buffer ++ ('\n' :: []), outputType := tp }]
  else []

/-- The terminal message of the `close` handler. -/
def closeMessage (code : Int) : List Char :=
  "Process finished with exit code: ".data ++ (toString code).data ++ ('\n' :: [])

/-- The message of the `Error` created on a nonzero exit code. -/
def exitMessage (code : Int) : List Char :=
  "Command failed with exit code ".data ++ (toString code).data

/-- The outcome of one `executeCommand` run: the emitted events, the
settled promise, and the registry after the run. -/
structure ExecResult where
  events : List Emit
  result : RunResult
  registry : Registry
deriving DecidableEq

/-- Model of `executeCommand(command, cwd, commandId, description)`: emit
the description event, spawn and register the handle, process the stream
chunks, and on close flush both buffers, emit the terminal event,
deregister the handle, and settle the promise by the exit code; on a
spawn-level error the promise is rejected with no further event and with
the handle left registered. -/
def executeCommand (description : Option (List Char)) (commandId : String)
    (h : Nat) (behavior : ProcBehavior) (reg : Registry) : ExecResult :=
  let reg1 := mapSet reg commandId h
  match behavior with
  | ProcBehavior.spawnErr e =>
    { events := descEmits description commandId,
      result := RunResult.rejectedSpawn e,
      registry := reg1 }
  | ProcBehavior.closes chunks code =>
    let s := runChunks commandId chunks [] []
    { events :=
        descEmits description commandId ++
        s.1.map Emit.output ++
        (closeFlush commandId OutputType.stdout s.2.1).map Emit.output ++
        (closeFlush commandId OutputType.stderr s.2.2).map Emit.output ++
        [Emit.output { commandId := commandId, output := closeMessage code,
                       outputType := if code = 0 then OutputType.success
                                     else OutputType.error }],
      result := if code = 0 then RunResult.resolved code else RunResult.rejectedExit code,
      registry := mapDelete reg1 commandId }

/-- The final path segment of a URL: `gitUrl.split("/").pop()`. -/
def lastSegment (url : List Char) : List Char :=
  (splitOnChar '/' url).getLastD []

/-- The needle of the `.replace(".git", "")` call. -/
def dotGit : List Char := ('.' :: 'g' :: 'i' :: 't' :: [])

/-- Model of the JavaScript `s.replace(needle, "")` for a plain string
needle: remove the first occurrence of the needle, if any. -/
def replaceFirst (n : List Char) : List Char → List Char
  | [] => []
  | c :: cs =>
    if n.isPrefixOf (c :: cs) then (c :: cs).drop n.length
    else c :: replaceFirst n cs

/-- The repository name derivation of the deploy route:
`gitUrl.split("/").pop().replace(".git", "")`. -/
def repoName (gitUrl : List Char) : List Char :=
  replaceFirst dotGit (lastSegment gitUrl)

/-- The error message attached to a rejected `executeCommand` promise, or
`none` when the promise resolved. -/
def errorMessage : RunResult → Option (List Char)
  | RunResult.resolved _ => none
  | RunResult.rejectedExit code => some (exitMessage code)
  | RunResult.rejectedSpawn e => some e.message

/-- The two emissions of the `catch` block of the deploy route: a stderr
event with the error message and a completion event with exit code 1. -/
def catchEvents (commandId : String) (msg : List Char) : List Emit :=
  [Emit.output { commandId := commandId, output := "Error: ".data ++ msg ++ ('\n' :: []),
                 outputType := OutputType.stderr },
   Emit.finished commandId 1]

/-- The behaviour of the external environment during one deploy request:
whether the target repository directory already exists, and the observable
behaviour of each of the four spawned subprocesses (step 1 is the clone or
the fetch, then checkout, install, build). -/
structure DeployBehavior where
  repoExists : Bool
  step1 : ProcBehavior
  step2 : ProcBehavior
  step3 : ProcBehavior
  step4 : ProcBehavior

/-- The HTTP response of the deploy route. -/
structure DeployResponse where
  status : Nat
  success : Bool
  commandId : Option String := none
  error : Option (List Char) := none
deriving DecidableEq

/-- The four command strings the deploy route may spawn, in order. -/
def deployCommands (gitUrl branch : List Char) (repoExists : Bool) :
    List (List Char) :=
  [(if repoExists then "git fetch --all".data else "git clone ".data ++ gitUrl),
   "git checkout ".data ++ branch ++ " && git pull origin ".data ++ branch,
   "npm install".data,
   "npm run build".data]

/-- Model of the deploy route: derive the repository name, announce the
session, and run the four steps strictly in sequence, stopping at the
first rejected step with the catch-block emissions and a 500 response.
Returns the emitted events, the command strings actually spawned, the
HTTP response, and the final registry. -/
def deploy (gitUrl branch : List Char) (commandId : String) (h1 h2 h3 h4 : Nat)
    (b : DeployBehavior) (reg : Registry) :
    List Emit × List (List Char) × DeployResponse × Registry :=
  let name := repoName gitUrl
  let startEv := Emit.output
    { commandId := commandId,
      output := "Starting deployment process for ".data ++ name ++ "...".data ++ ('\n' :: []),
      outputType := OutputType.system }
  let cmds := deployCommands gitUrl branch b.repoExists
  let desc1 := if b.repoExists then "Repository exists, fetching latest changes...".data
               else "Cloning repository ".data ++ gitUrl ++ "...".data
  let r1 := executeCommand (some desc1) commandId h1 b.step1 reg
  match errorMessage r1.result with
  | some msg =>
    ([startEv] ++ r1.events ++ catchEvents commandId msg, cmds.take 1,
     { status := 500, success := false, error := some msg }, r1.registry)
  | none =>
    let r2 := executeCommand (some ("Checking out branch: ".data ++ branch))
      commandId h2 b.step2 r1.registry
    match errorMessage r2.result with
    | some msg =>
      ([startEv] ++ r1.events ++ r2.events ++ catchEvents commandId msg, cmds.take 2,
       { status := 500, success := false, error := some msg }, r2.registry)
    | none =>
      let r3 := executeCommand (some ("Installing dependencies...".data))
        commandId h3 b.step3 r2.registry
      match errorMessage r3.result with
      | some msg =>
        ([startEv] ++ r1.events ++ r2.events ++ r3.events ++ catchEvents commandId msg,
         cmds.take 3,
         { status := 500, success := false, error := some msg }, r3.registry)
      | none =>
        let r4 := executeCommand (some ("Building the application...".data))
          commandId h4 b.step4 r3.registry
        match errorMessage r4.result with
        | some msg =>
          ([startEv] ++ r1.events ++ r2.events ++ r3.events ++ r4.events ++
             catchEvents commandId msg,
           cmds.take 4,
           { status := 500, success := false, error := some msg }, r4.registry)
        | none =>
          ([startEv] ++ r1.events ++ r2.events ++ r3.events ++ r4.events ++
             [Emit.finished commandId 0],
           cmds.take 4,
           { status := 200, success := true, commandId := some commandId }, r4.registry)

/-- The HTTP response of the stop route. -/
structure StopResponse where
  status : Nat
  success : Bool
  error : Option (List Char) := none
deriving DecidableEq

/-- Model of the stop route: look the handle up; when found, kill it,
remove it and emit the system event; otherwise answer 404.  Returns the
killed handles, the new registry, the emitted events and the response. -/
def stopHandler (reg : Registry) (commandId : String) :
    List Nat × Registry × List Emit × StopResponse :=
  match mapGet reg commandId with
  | some h =>
    ([h], mapDelete reg commandId,
     [Emit.output { commandId := commandId, output := "Process stopped by user\n".data,
                    outputType := OutputType.system }],
     { status := 200, success := true })
  | none =>
    ([], reg, [], { status := 404, success := false, error := some ("Process not found".data) })

/-- Model of the SIGTERM handler: kill every tracked handle and clear the
map.  Returns the killed handles and the cleared registry. -/
def killAllProcs (reg : Registry) : List Nat × Registry :=
  (reg.map Prod.snd, [])

/-- Repeated feeding of one stream: the per-stream fold of `processOutput`
over a sequence of chunks, starting from a given buffer. -/
def processStream (commandId : String) (tp : OutputType) :
    List Char → List (List Char) → List CommandEvent × List Char
  | buf, [] => ([], buf)
  | buf, d :: ds =>
    let p := processOutput buf d tp commandId
    let q := processStream commandId tp p.2 ds
    (p.1 ++ q.1, q.2)

/-- The events of a run that were emitted as complete lines: those without
a `replaceLast` property. -/
def completeEvents (evs : List CommandEvent) : List CommandEvent :=
  evs.filter fun e => e.replaceLast = none

/-- The output texts of a list of events. -/
def eventOutputs (evs : List CommandEvent) : List (List Char) :=
  evs.map fun e => e.output

/-- The lines of a split whose trim is nonempty: exactly the ones the
source emits. -/
def nonWsLines (ls : List (List Char)) : List (List Char) :=
  ls.filter fun l => jsTrim l ≠ []

/-- The substring relation, stated as an explicit decomposition: the
needle occurs contiguously somewhere in the haystack. -/
def ContainsSub (n l : List Char) : Prop :=
  ∃ a b, l = a ++ (n ++ b)

/-- The specification-side characterisation of a progress line: it
contains a progress-block glyph, a percent sign, the three-dot literal,
or a bracketed fraction of one or more digits, a slash and one or more
digits. -/
def ProgressSpec (l : List Char) : Prop :=
  ContainsSub (blockLight :: []) l ∨ ContainsSub (blockFull :: []) l ∨
  ContainsSub ('%' :: []) l ∨ ContainsSub dots l ∨
  ∃ a d1 d2 b, l = a ++ ('[' :: (d1 ++ '/' :: (d2 ++ ']' :: b))) ∧ d1 ≠ [] ∧ d2 ≠ [] ∧
    (∀ c ∈ d1, c.isDigit = true) ∧ (∀ c ∈ d2, c.isDigit = true)

/-- Is an emission a terminal event: a `commandOutput` whose type is
`success` or `error`. -/
def isTerminalEv : Emit → Bool
  | Emit.output ev =>
    match ev.outputType with
    | OutputType.success => true
    | OutputType.error => true
    | _ => false
  | Emit.finished _ _ => false

/-- Is an emission a line event: a `commandOutput` whose type is `stdout`
or `stderr`. -/
def isLineEv : Emit → Bool
  | Emit.output ev =>
    match ev.outputType with
    | OutputType.stdout => true
    | OutputType.stderr => true
    | _ => false
  | Emit.finished _ _ => false

/-- The rejection message a step behaviour produces, or `none` when the
step resolves (exit code zero). -/
def stepMsg : ProcBehavior → Option (List Char)
  | ProcBehavior.closes _ code => if code = 0 then none else some (exitMessage code)
  | ProcBehavior.spawnErr e => some e.message

/-- The first failing step of a deploy behaviour: its ordinal (1 to 4) and
its rejection message. -/
def firstFail (b : DeployBehavior) : Option (Nat × List Char) :=
  match stepMsg b.step1 with
  | some m => some (1, m)
  | none =>
    match stepMsg b.step2 with
    | some m => some (2, m)
    | none =>
      match stepMsg b.step3 with
      | some m => some (3, m)
      | none =>
        match stepMsg b.step4 with
        | some m => some (4, m)
        | none => none

/-- A deploy behaviour whose install step exits with code 1 while the
other steps succeed. -/
def installFails : DeployBehavior :=
  { repoExists := false, step1 := ProcBehavior.closes [] 0,
    step2 := ProcBehavior.closes [] 0, step3 := ProcBehavior.closes [] 1,
    step4 := ProcBehavior.closes [] 0 }

example : splitOnChar '\r' ("a\rb\rc".data) = ("a".data :: "b".data :: "c".data :: []) := by decide
example : classify ("50%".data) = true := by decide
example : classify ("[3/10] step".data) = true := by decide
example : classify ("Build finished".data) = false := by decide
example : jsTrim ("  x ".data) = ('x' :: []) := by decide

lemma splitOnChar_ne_nil (sep : Char) (l : List Char) : splitOnChar sep l ≠ [] := by
  induction l with
  | nil => simp [splitOnChar]
  | cons c cs ih =>
    by_cases hc : c = sep
    · simp [splitOnChar, hc]
    · cases hs : splitOnChar sep cs with
      | nil => simp [splitOnChar, hc, hs]
      | cons x ls => simp [splitOnChar, hc, hs]

lemma getLastD_irrel {α : Type} (x : α) (l : List α) (a b : α) :
    (x :: l).getLastD a = (x :: l).getLastD b := by
  rcases hY : (x :: l).getLast? with _ | v
  · simp at hY
  · simp [List.getLastD_eq_getLast?, hY]

lemma splitOnChar_cons_sep (sep : Char) (cs : List Char) :
    splitOnChar sep (sep :: cs) = [] :: splitOnChar sep cs := by
  simp [splitOnChar]

lemma splitOnChar_cons_ne_eq (sep c : Char) (cs : List Char) (hc : ¬ c = sep)
    (x : List Char) (ls : List (List Char)) (hs : splitOnChar sep cs = x :: ls) :
    splitOnChar sep (c :: cs) = (c :: x) :: ls := by
  simp [splitOnChar, hc, hs]

lemma dropLast_append_ne {α : Type} (X : List α) {Y : List α} (h : Y ≠ []) :
    (X ++ Y).dropLast = X ++ Y.dropLast := by
  induction X with
  | nil => simp
  | cons x X ih =>
    cases hXY : X ++ Y with
    | nil => exact absurd (List.append_eq_nil.mp hXY).2 h
    | cons a t =>
      rw [List.cons_append, hXY, List.dropLast_cons₂, ← hXY, ih, List.cons_append]

lemma getLastD_append_ne {α : Type} (X : List α) {Y : List α} (h : Y ≠ []) (d : α) :
    (X ++ Y).getLastD d = Y.getLastD d := by
  rcases hY : Y.getLast? with _ | v
  · exact absurd (List.getLast?_eq_none_iff.mp hY) h
  · simp [List.getLastD_eq_getLast?, List.getLast?_append, hY]

lemma splitOnChar_no_sep (sep : Char) (l : List Char) (h : sep ∉ l) :
    splitOnChar sep l = [l] := by
  induction l with
  | nil => rfl
  | cons c cs ih =>
    have hc : ¬ c = sep := fun hc => h (hc ▸ List.mem_cons_self c cs)
    have hcs : sep ∉ cs := fun hm => h (List.mem_cons_of_mem c hm)
    simp [splitOnChar, hc, ih hcs]

lemma splitOnChar_getLastD_not_mem (sep : Char) (l : List Char) :
    sep ∉ (splitOnChar sep l).getLastD [] := by
  induction l with
  | nil => simp [splitOnChar]
  | cons c cs ih =>
    by_cases hc : c = sep
    · subst hc
      rw [splitOnChar_cons_sep, List.getLastD_cons]
      exact ih
    · cases hs : splitOnChar sep cs with
      | nil => exact absurd hs (splitOnChar_ne_nil sep cs)
      | cons x ls =>
        rw [splitOnChar_cons_ne_eq sep c cs hc x ls hs]
        rw [hs] at ih
        cases ls with
        | nil =>
          rw [List.getLastD_cons, List.getLastD_nil] at ih ⊢
          intro hm
          rcases List.mem_cons.mp hm with h1 | h2
          · exact hc h1.symm
          · exact ih h2
        | cons y t =>
          rw [List.getLastD_cons, getLastD_irrel y t (c :: x) x]
          rw [List.getLastD_cons] at ih
          exact ih

lemma split_chain (sep : Char) (A B : List Char) :
    splitOnChar sep (A ++ B) =
      (splitOnChar sep A).dropLast ++
        splitOnChar sep ((splitOnChar sep A).getLastD [] ++ B) := by
  induction A with
  | nil => simp [splitOnChar]
  | cons c A ih =>
    by_cases hc : c = sep
    · subst hc
      cases hA : splitOnChar c A with
      | nil => exact absurd hA (splitOnChar_ne_nil c A)
      | cons a t =>
        have e1 : splitOnChar c (c :: A ++ B) = [] :: splitOnChar c (A ++ B) := by
          rw [List.cons_append, splitOnChar_cons_sep]
        have e2 : splitOnChar c (c :: A) = [] :: (a :: t) := by
          rw [splitOnChar_cons_sep, hA]
        rw [e1, ih, hA, e2, List.dropLast_cons₂,
          List.getLastD_cons ([] : List Char) ([] : List Char) (a :: t),
          List.cons_append]
    · cases hA : splitOnChar sep A with
      | nil => exact absurd hA (splitOnChar_ne_nil sep A)
      | cons x ls =>
        have eCA : splitOnChar sep (c :: A) = (c :: x) :: ls :=
          splitOnChar_cons_ne_eq sep c A hc x ls hA
        cases ls with
        | nil =>
          have hx : splitOnChar sep (A ++ B) = splitOnChar sep (x ++ B) := by
            rw [ih, hA, List.dropLast_single, List.getLastD_cons, List.getLastD_nil,
              List.nil_append]
          cases hxB : splitOnChar sep (x ++ B) with
          | nil => exact absurd hxB (splitOnChar_ne_nil sep (x ++ B))
          | cons m ms =>
            have lh : splitOnChar sep (c :: A ++ B) = (c :: m) :: ms := by
              rw [List.cons_append]
              exact splitOnChar_cons_ne_eq sep c (A ++ B) hc m ms (hx.trans hxB)
            have rh : splitOnChar sep (c :: (x ++ B)) = (c :: m) :: ms :=
              splitOnChar_cons_ne_eq sep c (x ++ B) hc m ms hxB
            rw [lh, eCA, List.dropLast_single, List.getLastD_cons, List.getLastD_nil,
              List.nil_append, List.cons_append, rh]
        | cons y t =>
          have hsplit : splitOnChar sep (A ++ B) =
              x :: (List.dropLast (y :: t) ++
                splitOnChar sep ((y :: t).getLastD x ++ B)) := by
            rw [ih, hA, List.dropLast_cons₂, List.getLastD_cons, List.cons_append]
          have lh : splitOnChar sep (c :: A ++ B) =
              (c :: x) :: (List.dropLast (y :: t) ++
                splitOnChar sep ((y :: t).getLastD x ++ B)) := by
            rw [List.cons_append]
            exact splitOnChar_cons_ne_eq sep c (A ++ B) hc _ _ hsplit
          rw [lh, eCA, List.dropLast_cons₂,
            List.getLastD_cons ([] : List Char) (c :: x) (y :: t),
            getLastD_irrel y t (c :: x) x, List.cons_append]

lemma jsTrim_eq_nil_iff (l : List Char) : jsTrim l = [] ↔ ∀ c ∈ l, isJsWs c = true := by
  unfold jsTrim
  rw [List.reverse_eq_nil_iff, List.dropWhile_eq_nil_iff]
  constructor
  · intro h c hc
    have hsplit : c ∈ l.takeWhile isJsWs ++ l.dropWhile isJsWs := by
      rw [List.takeWhile_append_dropWhile]
      exact hc
    rcases List.mem_append.mp hsplit with h1 | h2
    · exact List.mem_takeWhile_imp h1
    · exact h c (List.mem_reverse.mpr h2)
  · intro h c hc
    exact h c ((List.dropWhile_sublist isJsWs).mem (List.mem_reverse.mp hc))

lemma jsTrim_append_ne (l m : List Char) (h : jsTrim l ≠ []) : jsTrim (l ++ m) ≠ [] := by
  rw [Ne, jsTrim_eq_nil_iff] at h ⊢
  intro hall
  exact h fun c hc => hall c (List.mem_append_left m hc)

lemma mkLineEvents_mem (cid : String) (tp : OutputType) (ls : List (List Char)) :
    ∀ e ∈ mkLineEvents cid tp ls,
      e.outputType = tp ∧ e.replaceLast = none ∧ jsTrim e.output ≠ [] := by
  intro e he
  rw [mkLineEvents, List.mem_filterMap] at he
  obtain ⟨l, _, hsome⟩ := he
  by_cases h : jsTrim l ≠ []
  · rw [if_pos h, Option.some_inj] at hsome
    subst hsome
    exact ⟨rfl, rfl, h⟩
  · rw [if_neg h] at hsome
    exact absurd hsome (Option.noConfusion)

lemma mkLineEvents_outputs (cid : String) (tp : OutputType) (ls : List (List Char)) :
    eventOutputs (mkLineEvents cid tp ls) = nonWsLines ls := by
  induction ls with
  | nil => rfl
  | cons l ls ih =>
    by_cases h : jsTrim l ≠ []
    · have e1 : mkLineEvents cid tp (l :: ls) =
          { commandId := cid, output := l, outputType := tp,
            isProgress := some (classify l) } :: mkLineEvents cid tp ls := by
        rw [mkLineEvents, mkLineEvents]
        exact List.filterMap_cons_some (if_pos h)
      have e2 : nonWsLines (l :: ls) = l :: nonWsLines ls := by
        rw [nonWsLines, nonWsLines, List.filter_cons, decide_eq_true h]
        exact if_pos rfl
      rw [e1, eventOutputs, List.map_cons, ← eventOutputs, ih, e2]
    · have e1 : mkLineEvents cid tp (l :: ls) = mkLineEvents cid tp ls := by
        rw [mkLineEvents, mkLineEvents]
        exact List.filterMap_cons_none (if_neg h)
      have e2 : nonWsLines (l :: ls) = nonWsLines ls := by
        rw [nonWsLines, nonWsLines, List.filter_cons, decide_eq_false h]
        exact if_neg (by simp)
      rw [e1, ih, e2]

lemma mkPendingEvents_mem (cid : String) (tp : OutputType) (p : List Char) :
    ∀ e ∈ mkPendingEvents cid tp p,
      e.outputType = tp ∧ e.isProgress = some true ∧ e.replaceLast = some true ∧
        jsTrim e.output ≠ [] := by
  intro e he
  rw [mkPendingEvents] at he
  by_cases h : jsTrim p ≠ []
  · rw [if_pos h, List.mem_singleton] at he
    subst he
    exact ⟨rfl, rfl, rfl, h⟩
  · rw [if_neg h] at he
    exact absurd he (List.not_mem_nil e)

lemma completeEvents_mkLineEvents (cid : String) (tp : OutputType) (ls : List (List Char)) :
    completeEvents (mkLineEvents cid tp ls) = mkLineEvents cid tp ls := by
  rw [completeEvents, List.filter_eq_self]
  intro e he
  exact decide_eq_true (mkLineEvents_mem cid tp ls e he).2.1

lemma completeEvents_mkPendingEvents (cid : String) (tp : OutputType) (p : List Char) :
    completeEvents (mkPendingEvents cid tp p) = [] := by
  rw [completeEvents, List.filter_eq_nil_iff]
  intro e he
  have h := (mkPendingEvents_mem cid tp p e he).2.2.1
  simp [h]

lemma processOutput_snd (buffer data : List Char) (tp : OutputType) (cid : String) :
    (processOutput buffer data tp cid).2 =
      (splitOnChar '\r' (buffer ++ data)).getLastD [] := rfl

lemma processOutput_complete (buffer data : List Char) (tp : OutputType) (cid : String) :
    eventOutputs (completeEvents (processOutput buffer data tp cid).1) =
      nonWsLines ((splitOnChar '\r' (buffer ++ data)).dropLast) := by
  rw [processOutput]
  simp only [completeEvents, List.filter_append]
  rw [← completeEvents, ← completeEvents, completeEvents_mkLineEvents,
    completeEvents_mkPendingEvents, List.append_nil, mkLineEvents_outputs]

lemma processOutput_pending (buffer data : List Char) (tp : OutputType) (cid : String) :
    (processOutput buffer data tp cid).1.filter (fun e => e.replaceLast ≠ none) =
      mkPendingEvents cid tp ((splitOnChar '\r' (buffer ++ data)).getLastD []) := by
  rw [processOutput]
  simp only [List.filter_append]
  have h1 : (mkLineEvents cid tp ((splitOnChar '\r' (buffer ++ data)).dropLast)).filter
      (fun e => e.replaceLast ≠ none) = [] := by
    rw [List.filter_eq_nil_iff]
    intro e he
    have h := (mkLineEvents_mem cid tp _ e he).2.1
    simp [h]
  have h2 : (mkPendingEvents cid tp ((splitOnChar '\r' (buffer ++ data)).getLastD [])).filter
      (fun e => e.replaceLast ≠ none) =
      mkPendingEvents cid tp ((splitOnChar '\r' (buffer ++ data)).getLastD []) := by
    rw [List.filter_eq_self]
    intro e he
    have h := (mkPendingEvents_mem cid tp _ e he).2.2.1
    simp [h]
  rw [h1, h2, List.nil_append]

lemma processOutput_mem (buffer data : List Char) (tp : OutputType) (cid : String) :
    ∀ e ∈ (processOutput buffer data tp cid).1,
      e.outputType = tp ∧ jsTrim e.output ≠ [] := by
  intro e he
  rw [processOutput] at he
  rcases List.mem_append.mp he with h | h
  · have := mkLineEvents_mem cid tp _ e h
    exact ⟨this.1, this.2.2⟩
  · have := mkPendingEvents_mem cid tp _ e h
    exact ⟨this.1, this.2.2.2⟩

lemma processStream_spec (cid : String) (tp : OutputType) (chunks : List (List Char)) :
    ∀ buf : List Char, '\r' ∉ buf →
      (processStream cid tp buf chunks).2 =
          (splitOnChar '\r' (buf ++ chunks.flatten)).getLastD [] ∧
      eventOutputs (completeEvents (processStream cid tp buf chunks).1) =
          nonWsLines ((splitOnChar '\r' (buf ++ chunks.flatten)).dropLast) := by
  induction chunks with
  | nil =>
    intro buf hbuf
    have h := splitOnChar_no_sep '\r' buf hbuf
    constructor
    · rw [processStream]
      simp [h]
    · rw [processStream]
      simp [h, completeEvents, eventOutputs, nonWsLines]
  | cons d ds ih =>
    intro buf hbuf
    have hp2 : '\r' ∉ (processOutput buf d tp cid).2 := by
      rw [processOutput_snd]
      exact splitOnChar_getLastD_not_mem '\r' (buf ++ d)
    obtain ⟨ihSnd, ihEvs⟩ := ih (processOutput buf d tp cid).2 hp2
    have hjoin : buf ++ (d :: ds).flatten = (buf ++ d) ++ ds.flatten := by
      rw [List.flatten_cons, List.append_assoc]
    have hchain := split_chain '\r' (buf ++ d) ds.flatten
    have hne : splitOnChar '\r' ((splitOnChar '\r' (buf ++ d)).getLastD [] ++ ds.flatten) ≠ [] :=
      splitOnChar_ne_nil '\r' _
    constructor
    · rw [processStream]
      show (processStream cid tp (processOutput buf d tp cid).2 ds).2 = _
      rw [ihSnd, processOutput_snd, hjoin, hchain,
        getLastD_append_ne _ hne]
    · rw [processStream]
      show eventOutputs (completeEvents ((processOutput buf d tp cid).1 ++
        (processStream cid tp (processOutput buf d tp cid).2 ds).1)) = _
      rw [completeEvents, List.filter_append, ← completeEvents, ← completeEvents,
        eventOutputs, List.map_append, ← eventOutputs, ← eventOutputs,
        processOutput_complete, ihEvs, processOutput_snd, hjoin, hchain,
        dropLast_append_ne _ hne]
      simp only [nonWsLines, List.filter_append]

/-- Claim C3: the line reassembler of `processOutput` is a pure function of
the buffer and the chunk; it splits the accumulated text on the carriage
return, every element except the last is a complete line, the last element
becomes the new pending buffer and is not emitted as complete; feeding one
chunk with several separators yields the same complete-line sequence and
the same pending buffer as feeding the pieces across several calls, and in
particular one chunk of the text a-CR-b-CR-c gives complete lines a and b
with pending c, the same as three single-piece calls. -/
theorem c3_reassembler (buffer c1 c2 : List Char) (tp : OutputType) (cid : String) :
    (processOutput buffer c1 tp cid).2 = (splitOnChar '\r' (buffer ++ c1)).getLastD [] ∧
    eventOutputs (completeEvents (processOutput buffer c1 tp cid).1) =
        nonWsLines ((splitOnChar '\r' (buffer ++ c1)).dropLast) ∧
    eventOutputs (completeEvents (processOutput buffer (c1 ++ c2) tp cid).1) =
        eventOutputs (completeEvents (processOutput buffer c1 tp cid).1) ++
        eventOutputs (completeEvents
          (processOutput (processOutput buffer c1 tp cid).2 c2 tp cid).1) ∧
    (processOutput buffer (c1 ++ c2) tp cid).2 =
        (processOutput (processOutput buffer c1 tp cid).2 c2 tp cid).2 ∧
    processStream "id" OutputType.stdout [] (("a\rb\rc".data) :: []) =
        processStream "id" OutputType.stdout []
          (("a\r".data) :: ("b\r".data) :: ("c".data) :: []) ∧
    eventOutputs (completeEvents
        (processStream "id" OutputType.stdout [] (("a\rb\rc".data) :: [])).1) =
      ("a".data :: "b".data :: []) ∧
    (processStream "id" OutputType.stdout [] (("a\rb\rc".data) :: [])).2 = "c".data := by
  refine ⟨processOutput_snd buffer c1 tp cid, processOutput_complete buffer c1 tp cid,
    ?_, ?_, by decide, by decide, by decide⟩
  · simp only [processOutput_complete, processOutput_snd]
    rw [← List.append_assoc, split_chain '\r' (buffer ++ c1) c2,
      dropLast_append_ne _ (splitOnChar_ne_nil '\r' _)]
    simp only [nonWsLines, List.filter_append]
  · simp only [processOutput_snd]
    rw [← List.append_assoc, split_chain '\r' (buffer ++ c1) c2,
      getLastD_append_ne _ (splitOnChar_ne_nil '\r' _)]

/-- Claim C1 counterexample: feeding the chunk a and then the chunk CR to a
fresh stream surfaces the byte a twice: once as the flagged pending-line
event emitted right after the first chunk, and once as the complete-line
event emitted after the second chunk.  The claim that every byte is
surfaced exactly once is therefore false. -/
theorem c1_counterexample :
    eventOutputs (processStream "id" OutputType.stdout []
        (("a".data) :: ("\r".data) :: [])).1 = ("a".data :: "a".data :: []) ∧
    (eventOutputs (processStream "id" OutputType.stdout []
        (("a".data) :: ("\r".data) :: [])).1).count ("a".data) = 2 := by
  constructor <;> decide

/-- Claim C1 (amended): for every sequence of raw chunks fed to one stream,
the complete-line events surface, in order and exactly once each, exactly
the nonblank complete lines of the carriage-return split of the whole raw
input; the pending buffer after the last chunk is the final segment of
that split; and the close-time flush surfaces that pending buffer exactly
once (with a newline appended) when it is nonblank and never otherwise.
Bytes of a pending partial line, however, are additionally re-emitted by
the flagged per-chunk pending-line events, and blank lines are dropped, so
the original exactly-once claim over all events does not hold. -/
theorem c1_amended (cid : String) (tp : OutputType) (chunks : List (List Char)) :
    eventOutputs (completeEvents (processStream cid tp [] chunks).1) =
        nonWsLines ((splitOnChar '\r' chunks.flatten).dropLast) ∧
    (processStream cid tp [] chunks).2 = (splitOnChar '\r' chunks.flatten).getLastD [] ∧
    eventOutputs (closeFlush cid tp (processStream cid tp [] chunks).2) =
        (if jsTrim (processStream cid tp [] chunks).2 ≠ [] then
          ((processStream cid tp [] chunks).2 ++ ('\n' :: [])) :: []
         else []) := by
  obtain ⟨hsnd, hevs⟩ := processStream_spec cid tp chunks [] (by simp)
  refine ⟨?_, ?_, ?_⟩
  · rw [hevs, List.nil_append]
  · rw [hsnd, List.nil_append]
  · rw [closeFlush]
    by_cases h : jsTrim (processStream cid tp [] chunks).2 ≠ []
    · rw [if_pos h, if_pos h]
      rfl
    · rw [if_neg h, if_neg h]
      rfl

/-- Claim C2 counterexample: in a run whose stdout produces the single
chunk x and then closes, the pending buffer x is emitted already by the
chunk handler (first event, before any close processing), and the
close-time flush event for that buffer (second event) carries neither
`isProgress` nor `replaceLast`.  Both halves of the claim — emission only
at close, and flush flagged with `isProgress=true, replaceLast=true` — are
therefore false. -/
theorem c2_counterexample :
    (executeCommand none "id" 0
        (ProcBehavior.closes (ChunkEvent.stdoutData ("x".data) :: []) 0) []).events =
      (Emit.output { commandId := "id", output := "x".data,
                     outputType := OutputType.stdout, isProgress := some true,
                     replaceLast := some true } ::
       Emit.output { commandId := "id", output := "x\n".data,
                     outputType := OutputType.stdout } ::
       Emit.output { commandId := "id", output := closeMessage 0,
                     outputType := OutputType.success } :: []) := by
  decide

/-- Claim C2 (amended): the trailing pending buffer of a stream is emitted,
with `isProgress=true` and `replaceLast=true`, by every chunk callback
whose pending line is nonblank — not only at close; every flagged event is
so flagged.  At close, each stream buffer is flushed at most once: exactly
one unflagged event with a newline appended when the buffer trim is
nonempty, and no event at all for a blank buffer. -/
theorem c2_amended (buffer data : List Char) (tp : OutputType) (cid : String)
    (desc : Option (List Char)) (h : Nat) (chunks : List ChunkEvent) (code : Int)
    (reg : Registry) :
    (processOutput buffer data tp cid).1.filter (fun e => e.replaceLast ≠ none) =
        (if jsTrim ((splitOnChar '\r' (buffer ++ data)).getLastD []) ≠ [] then
          ({ commandId := cid, output := (splitOnChar '\r' (buffer ++ data)).getLastD [],
             outputType := tp, isProgress := some true,
             replaceLast := some true } : CommandEvent) :: []
         else []) ∧
    (∀ e ∈ (processOutput buffer data tp cid).1, e.replaceLast ≠ none →
        e.isProgress = some true ∧ e.replaceLast = some true) ∧
    (executeCommand desc cid h (ProcBehavior.closes chunks code) reg).events =
        descEmits desc cid ++
        (runChunks cid chunks [] []).1.map Emit.output ++
        (closeFlush cid OutputType.stdout (runChunks cid chunks [] []).2.1).map Emit.output ++
        (closeFlush cid OutputType.stderr (runChunks cid chunks [] []).2.2).map Emit.output ++
        (Emit.output { commandId := cid, output := closeMessage code,
                       outputType := if code = 0 then OutputType.success
                                     else OutputType.error } :: []) ∧
    (∀ b : List Char, closeFlush cid tp b =
        (if jsTrim b ≠ [] then
          ({ commandId := cid, output := b ++ ('\n' :: []), outputType := tp } :
            CommandEvent) :: []
         else [])) := by
  refine ⟨?_, ?_, rfl, fun b => rfl⟩
  · rw [processOutput_pending, mkPendingEvents]
  · intro e he hrl
    rw [processOutput] at he
    rcases List.mem_append.mp he with h1 | h2
    · exact absurd (mkLineEvents_mem cid tp _ e h1).2.1 hrl
    · have hm := mkPendingEvents_mem cid tp _ e h2
      exact ⟨hm.2.1, hm.2.2.1⟩

/-- Claim C2 witness: the flagged pending-line event of a concrete chunk
carries `isProgress=true`. -/
theorem c2_amended_witness :
    ({ commandId := "id", output := "x".data, outputType := OutputType.stdout,
       isProgress := some true, replaceLast := some true } : CommandEvent).isProgress =
      some true :=
  ((c2_amended [] ("x".data) OutputType.stdout "id" none 0 [] 0 []).2.1
      _ (by decide) (by decide)).1

/-- Claim C10: a line or trailing buffer whose trim is empty is silently
discarded: every event emitted by `processOutput` (complete-line or
pending-line) and every close-time flush event has an output whose trim is
nonempty. -/
theorem c10_no_whitespace (buffer data : List Char) (tp : OutputType) (cid : String)
    (b : List Char) :
    (∀ e ∈ (processOutput buffer data tp cid).1, jsTrim e.output ≠ []) ∧
    (∀ e ∈ closeFlush cid tp b, jsTrim e.output ≠ []) := by
  constructor
  · intro e he
    exact (processOutput_mem buffer data tp cid e he).2
  · intro e he
    rw [closeFlush] at he
    by_cases h : jsTrim b ≠ []
    · rw [if_pos h, List.mem_singleton] at he
      subst he
      exact jsTrim_append_ne b ('\n' :: []) h
    · rw [if_neg h] at he
      exact absurd he (List.not_mem_nil e)

/-- Claim C10 witness: the complete-line event of a concrete chunk has a
nonblank output. -/
theorem c10_no_whitespace_witness :
    jsTrim ({ commandId := "id", output := "hi".data, outputType := OutputType.stdout,
              isProgress := some (classify ("hi".data)) } : CommandEvent).output ≠ [] :=
  (c10_no_whitespace [] ("hi\r".data) OutputType.stdout "id" []).1 _ (by decide)

lemma mapGet_delete (m : Registry) (k : String) : mapGet (mapDelete m k) k = none := by
  induction m with
  | nil => rfl
  | cons kv m ih =>
    obtain ⟨k1, v1⟩ := kv
    show mapGet (List.filter (fun kv => kv.1 != k) ((k1, v1) :: m)) k = none
    by_cases h : k1 = k
    · have hb : ((k1, v1).1 != k) = false := by simp [h]
      rw [List.filter_cons, hb]
      rw [if_neg Bool.false_ne_true]
      exact ih
    · have hb : ((k1, v1).1 != k) = true := by simp [h]
      rw [List.filter_cons, hb, if_pos rfl]
      show List.lookup k ((k1, v1) :: List.filter (fun kv => kv.1 != k) m) = none
      have hk : (k == k1) = false := beq_eq_false_iff_ne.mpr fun hh => h hh.symm
      rw [List.lookup_cons, hk]
      exact ih

lemma lookup_map_update (m : Registry) (k : String) (v : Nat) :
    (m.lookup k).isSome →
    (m.map fun kv => if kv.1 = k then (k, v) else kv).lookup k = some v := by
  induction m with
  | nil =>
    intro hs
    simp at hs
  | cons kv m ih =>
    intro hs
    obtain ⟨k1, v1⟩ := kv
    by_cases h : k1 = k
    · subst h
      rw [List.map_cons, if_pos rfl, List.lookup_cons]
      simp
    · have hk : (k == k1) = false := beq_eq_false_iff_ne.mpr fun hh => h hh.symm
      have hs2 : (m.lookup k).isSome := by
        rw [List.lookup_cons, hk] at hs
        exact hs
      rw [List.map_cons, if_neg h, List.lookup_cons, hk]
      exact ih hs2

lemma mapGet_set (m : Registry) (k : String) (v : Nat) :
    mapGet (mapSet m k v) k = some v := by
  by_cases hs : (m.lookup k).isSome
  · rw [mapGet, mapSet, if_pos hs]
    exact lookup_map_update m k v hs
  · rw [mapGet, mapSet, if_neg hs]
    have hn : m.lookup k = none := by
      cases hlk : m.lookup k with
      | none => rfl
      | some x =>
        rw [hlk] at hs
        simp at hs
    simp [List.lookup_append, hn]

lemma containsSeq_iff (n l : List Char) :
    containsSeq n l = true ↔ ∃ a b, l = a ++ (n ++ b) := by
  induction l with
  | nil =>
    rw [containsSeq]
    constructor
    · intro hn
      have hn2 : n = [] := by simpa using hn
      exact ⟨[], [], by simp [hn2]⟩
    · rintro ⟨a, b, hab⟩
      rcases List.append_eq_nil.mp hab.symm with ⟨ha, hnb⟩
      rcases List.append_eq_nil.mp hnb with ⟨hn, hb⟩
      simp [hn]
  | cons c cs ih =>
    rw [containsSeq, Bool.or_eq_true]
    constructor
    · rintro (hp | hc)
      · rw [List.isPrefixOf_iff_prefix] at hp
        obtain ⟨t, ht⟩ := hp
        exact ⟨[], t, by rw [List.nil_append, ← ht]⟩
      · obtain ⟨a, b, hab⟩ := ih.mp hc
        exact ⟨c :: a, b, by rw [hab, List.cons_append]⟩
    · rintro ⟨a, b, hab⟩
      cases a with
      | nil =>
        left
        rw [List.isPrefixOf_iff_prefix]
        rw [List.nil_append] at hab
        exact ⟨b, hab.symm⟩
      | cons a0 a2 =>
        right
        apply ih.mpr
        rw [List.cons_append] at hab
        injection hab with h1 h2
        exact ⟨a2, b, h2⟩

lemma containsSeq_decomp (n a b : List Char) :
    containsSeq n (a ++ n ++ b) = true :=
  (containsSeq_iff n (a ++ n ++ b)).mpr ⟨a, b, by rw [List.append_assoc]⟩

lemma runChunks_mem (cid : String) (chunks : List ChunkEvent) :
    ∀ so se, ∀ e ∈ (runChunks cid chunks so se).1,
      (e.outputType = OutputType.stdout ∨ e.outputType = OutputType.stderr) ∧
        jsTrim e.output ≠ [] := by
  induction chunks with
  | nil =>
    intro so se e he
    exact absurd he (List.not_mem_nil e)
  | cons c rest ih =>
    intro so se e he
    cases c with
    | stdoutData d =>
      simp only [runChunks] at he
      rcases List.mem_append.mp he with h1 | h2
      · have hm := processOutput_mem so d OutputType.stdout cid e h1
        exact ⟨Or.inl hm.1, hm.2⟩
      · exact ih _ _ e h2
    | stderrData d =>
      simp only [runChunks] at he
      rcases List.mem_append.mp he with h1 | h2
      · have hm := processOutput_mem se d OutputType.stderr cid e h1
        exact ⟨Or.inr hm.1, hm.2⟩
      · exact ih _ _ e h2

lemma filter_terminal_descEmits (desc : Option (List Char)) (cid : String) :
    (descEmits desc cid).filter isTerminalEv = [] := by
  cases desc <;> rfl

lemma filter_line_descEmits (desc : Option (List Char)) (cid : String) :
    (descEmits desc cid).filter isLineEv = [] := by
  cases desc <;> rfl

lemma filter_terminal_runChunks (cid : String) (chunks : List ChunkEvent) :
    ((runChunks cid chunks [] []).1.map Emit.output).filter isTerminalEv = [] := by
  rw [List.filter_eq_nil_iff]
  intro a ha
  rw [List.mem_map] at ha
  obtain ⟨ev, hev, rfl⟩ := ha
  rcases (runChunks_mem cid chunks [] [] ev hev).1 with h1 | h1 <;>
    simp [isTerminalEv, h1]

lemma filter_terminal_closeFlush (cid : String) (tp : OutputType)
    (htp : tp = OutputType.stdout ∨ tp = OutputType.stderr) (b : List Char) :
    ((closeFlush cid tp b).map Emit.output).filter isTerminalEv = [] := by
  rw [closeFlush]
  by_cases hx : jsTrim b ≠ []
  · rw [if_pos hx]
    rcases htp with h1 | h1 <;> subst h1 <;> rfl
  · rw [if_neg hx]
    rfl

/-- Claim C5: on close with exit code 0 the runner emits exactly one
terminal event, of type `success`, whose text contains the exit code, and
resolves with the code; on close with a nonzero code the single terminal
event has type `error` and the promise is rejected carrying the code; on a
spawn-level error the promise is rejected with the spawn error and no
terminal event and no line event is emitted. -/
theorem c5_runner (desc : Option (List Char)) (cid : String) (h : Nat)
    (chunks : List ChunkEvent) (code : Int) (e : SpawnErrorInfo) (reg : Registry) :
    (executeCommand desc cid h (ProcBehavior.closes chunks code) reg).events.filter
        isTerminalEv =
      (Emit.output { commandId := cid, output := closeMessage code,
                     outputType := if code = 0 then OutputType.success
                                   else OutputType.error } :: []) ∧
    containsSeq ((toString code).data) (closeMessage code) = true ∧
    (executeCommand desc cid h (ProcBehavior.closes chunks code) reg).result =
      (if code = 0 then RunResult.resolved code else RunResult.rejectedExit code) ∧
    (executeCommand desc cid h (ProcBehavior.spawnErr e) reg).result =
      RunResult.rejectedSpawn e ∧
    (executeCommand desc cid h (ProcBehavior.spawnErr e) reg).events.filter isTerminalEv =
      [] ∧
    (executeCommand desc cid h (ProcBehavior.spawnErr e) reg).events.filter isLineEv =
      [] := by
  refine ⟨?_, containsSeq_decomp _ _ _, rfl, rfl,
    filter_terminal_descEmits desc cid, filter_line_descEmits desc cid⟩
  have hev : (executeCommand desc cid h (ProcBehavior.closes chunks code) reg).events =
      descEmits desc cid ++ (runChunks cid chunks [] []).1.map Emit.output ++
      (closeFlush cid OutputType.stdout (runChunks cid chunks [] []).2.1).map Emit.output ++
      (closeFlush cid OutputType.stderr (runChunks cid chunks [] []).2.2).map Emit.output ++
      (Emit.output { commandId := cid, output := closeMessage code,
                     outputType := if code = 0 then OutputType.success
                                   else OutputType.error } :: []) := rfl
  have ht : isTerminalEv
      (Emit.output { commandId := cid, output := closeMessage code,
                     outputType := if code = 0 then OutputType.success
                                   else OutputType.error }) = true := by
    by_cases hc : code = 0 <;> simp [isTerminalEv, hc]
  rw [hev, List.filter_append, List.filter_append, List.filter_append, List.filter_append,
    filter_terminal_descEmits desc cid, filter_terminal_runChunks cid chunks,
    filter_terminal_closeFlush cid OutputType.stdout (Or.inl rfl) _,
    filter_terminal_closeFlush cid OutputType.stderr (Or.inr rfl) _,
    List.filter_cons, ht, if_pos rfl]
  rfl

/-- Claim C7 counterexample: a spawn-level error leaves the handle
registered — after an `executeCommand` run that errors at spawn, the
registry still maps the command identifier to the handle, so the claim
that the handle is removed on error is false. -/
theorem c7_counterexample :
    mapGet (executeCommand none "id" 7
        (ProcBehavior.spawnErr ⟨"boom".data⟩) []).registry "id" = some 7 ∧
    mapGet (executeCommand none "id" 7
        (ProcBehavior.spawnErr ⟨"boom".data⟩) []).registry "id" ≠ none := by
  constructor <;> decide

/-- Claim C7 (amended): the handle is removed from the registry when the
command completes (the close handler deletes it) and when it is explicitly
killed via stop; a spawn-level error, however, performs no removal, so the
errored handle stays registered. -/
theorem c7_amended (desc : Option (List Char)) (cid : String) (h : Nat)
    (chunks : List ChunkEvent) (code : Int) (e : SpawnErrorInfo) (reg : Registry) :
    mapGet (executeCommand desc cid h (ProcBehavior.closes chunks code) reg).registry
        cid = none ∧
    mapGet (stopHandler reg cid).2.1 cid = none ∧
    mapGet (executeCommand desc cid h (ProcBehavior.spawnErr e) reg).registry cid =
      some h := by
  refine ⟨mapGet_delete (mapSet reg cid h) cid, ?_, mapGet_set reg cid h⟩
  cases hg : mapGet reg cid with
  | none =>
    simp only [stopHandler, hg]
  | some v =>
    simp only [stopHandler, hg]
    exact mapGet_delete reg cid

/-- Claim C9: after the shutdown handler runs, every previously registered
identifier resolves to nothing and every tracked handle has been killed;
and a stop request for an unknown identifier kills nothing, leaves the
registry unchanged, and answers with the user-facing not-found error. -/
theorem c9_registry (reg : Registry) (cid : String) :
    mapGet (killAllProcs reg).2 cid = none ∧
    (killAllProcs reg).1 = reg.map Prod.snd ∧
    (mapGet reg cid = none →
      (stopHandler reg cid).1 = [] ∧
      (stopHandler reg cid).2.1 = reg ∧
      (stopHandler reg cid).2.2.2 =
        { status := 404, success := false,
          error := some ("Process not found".data) }) := by
  refine ⟨rfl, rfl, fun hg => ?_⟩
  have hs : stopHandler reg cid =
      ([], reg, [],
        { status := 404, success := false, error := some ("Process not found".data) }) := by
    simp only [stopHandler, hg]
  rw [hs]
  exact ⟨rfl, rfl, rfl⟩

/-- Claim C9 witness: a stop request for an unregistered identifier on a
concrete registry answers 404 with the not-found error. -/
theorem c9_registry_witness :
    (stopHandler (("a", 1) :: []) "b").2.2.2 =
      { status := 404, success := false,
        error := some ("Process not found".data) } :=
  ((c9_registry (("a", 1) :: []) "b").2.2 (by decide)).2.2

lemma ne_of_head_ne (c d : Char) (l m : List Char) (h : c ≠ d) : (c :: l) ≠ (d :: m) := by
  intro hh
  exact h ((List.cons.injEq c l d m).mp hh).1

lemma npm_build_not_mem_prefix (gitUrl branch : List Char) (re : Bool) (k : Nat)
    (hk : k ≤ 3) :
    ("npm run build".data) ∉ (deployCommands gitUrl branch re).take k := by
  cases re with
  | false =>
    interval_cases k
    · simp
    · have ht : (deployCommands gitUrl branch false).take 1 =
          (("git clone ".data ++ gitUrl) :: []) := rfl
      rw [ht]
      simp
    · have ht : (deployCommands gitUrl branch false).take 2 =
          (("git clone ".data ++ gitUrl) ::
           ("git checkout ".data ++ branch ++ " && git pull origin ".data ++ branch) ::
           []) := rfl
      rw [ht]
      simp
    · have ht : (deployCommands gitUrl branch false).take 3 =
          (("git clone ".data ++ gitUrl) ::
           ("git checkout ".data ++ branch ++ " && git pull origin ".data ++ branch) ::
           ("npm install".data) :: []) := rfl
      rw [ht]
      simp
  | true =>
    interval_cases k
    · simp
    · have ht : (deployCommands gitUrl branch true).take 1 =
          (("git fetch --all".data) :: []) := rfl
      rw [ht]
      simp
    · have ht : (deployCommands gitUrl branch true).take 2 =
          (("git fetch --all".data) ::
           ("git checkout ".data ++ branch ++ " && git pull origin ".data ++ branch) ::
           []) := rfl
      rw [ht]
      simp
    · have ht : (deployCommands gitUrl branch true).take 3 =
          (("git fetch --all".data) ::
           ("git checkout ".data ++ branch ++ " && git pull origin ".data ++ branch) ::
           ("npm install".data) :: []) := rfl
      rw [ht]
      simp

lemma errorMessage_executeCommand (desc : Option (List Char)) (cid : String) (h : Nat)
    (b : ProcBehavior) (reg : Registry) :
    errorMessage (executeCommand desc cid h b reg).result = stepMsg b := by
  cases b with
  | closes chunks code =>
    by_cases hc : code = 0 <;> simp [executeCommand, errorMessage, stepMsg, hc]
  | spawnErr e => rfl

/-- Claim C6: if any deployment step rejects, the sequencer emits one
stderr event carrying the error message followed by a completion event
with exit code 1, answers 500 with the error and no command identifier,
and spawns exactly the commands up to and including the failing step — in
particular, when a step before the build fails, the build command is never
spawned. -/
theorem c6_sequencer (gitUrl branch : List Char) (cid : String) (h1 h2 h3 h4 : Nat)
    (b : DeployBehavior) (reg : Registry) (k : Nat) (msg : List Char)
    (hf : firstFail b = some (k, msg)) :
    (deploy gitUrl branch cid h1 h2 h3 h4 b reg).2.2.1 =
      { status := 500, success := false, error := some msg } ∧
    (∃ pre, (deploy gitUrl branch cid h1 h2 h3 h4 b reg).1 =
      pre ++ catchEvents cid msg) ∧
    (deploy gitUrl branch cid h1 h2 h3 h4 b reg).2.1 =
      (deployCommands gitUrl branch b.repoExists).take k ∧
    (k ≤ 3 →
      ("npm run build".data) ∉ (deploy gitUrl branch cid h1 h2 h3 h4 b reg).2.1) := by
  rcases hs1 : stepMsg b.step1 with _ | m1
  · rcases hs2 : stepMsg b.step2 with _ | m2
    · rcases hs3 : stepMsg b.step3 with _ | m3
      · rcases hs4 : stepMsg b.step4 with _ | m4
        · simp only [firstFail, hs1, hs2, hs3, hs4] at hf
          exact Option.noConfusion hf
        · simp only [firstFail, hs1, hs2, hs3, hs4, Option.some_inj,
            Prod.mk.injEq] at hf
          obtain ⟨hk, hm⟩ := hf
          subst hk
          subst hm
          refine ⟨?_, ?_, ?_, ?_⟩
          · simp only [deploy, errorMessage_executeCommand, hs1, hs2, hs3, hs4]
          · simp only [deploy, errorMessage_executeCommand, hs1, hs2, hs3, hs4]
            exact ⟨_, rfl⟩
          · simp only [deploy, errorMessage_executeCommand, hs1, hs2, hs3, hs4]
          · intro hk4
            exact absurd hk4 (by norm_num)
      · simp only [firstFail, hs1, hs2, hs3, Option.some_inj, Prod.mk.injEq] at hf
        obtain ⟨hk, hm⟩ := hf
        subst hk
        subst hm
        refine ⟨?_, ?_, ?_, ?_⟩
        · simp only [deploy, errorMessage_executeCommand, hs1, hs2, hs3]
        · simp only [deploy, errorMessage_executeCommand, hs1, hs2, hs3]
          exact ⟨_, rfl⟩
        · simp only [deploy, errorMessage_executeCommand, hs1, hs2, hs3]
        · intro hk3
          have hgoal := npm_build_not_mem_prefix gitUrl branch b.repoExists 3 (by norm_num)
          simp only [deploy, errorMessage_executeCommand, hs1, hs2, hs3]
          exact hgoal
    · simp only [firstFail, hs1, hs2, Option.some_inj, Prod.mk.injEq] at hf
      obtain ⟨hk, hm⟩ := hf
      subst hk
      subst hm
      refine ⟨?_, ?_, ?_, ?_⟩
      · simp only [deploy, errorMessage_executeCommand, hs1, hs2]
      · simp only [deploy, errorMessage_executeCommand, hs1, hs2]
        exact ⟨_, rfl⟩
      · simp only [deploy, errorMessage_executeCommand, hs1, hs2]
      · intro hk2
        have hgoal := npm_build_not_mem_prefix gitUrl branch b.repoExists 2 (by norm_num)
        simp only [deploy, errorMessage_executeCommand, hs1, hs2]
        exact hgoal
  · simp only [firstFail, hs1, Option.some_inj, Prod.mk.injEq] at hf
    obtain ⟨hk, hm⟩ := hf
    subst hk
    subst hm
    refine ⟨?_, ?_, ?_, ?_⟩
    · simp only [deploy, errorMessage_executeCommand, hs1]
    · simp only [deploy, errorMessage_executeCommand, hs1]
      exact ⟨_, rfl⟩
    · simp only [deploy, errorMessage_executeCommand, hs1]
    · intro hk1
      have hgoal := npm_build_not_mem_prefix gitUrl branch b.repoExists 1 (by norm_num)
      simp only [deploy, errorMessage_executeCommand, hs1]
      exact hgoal

/-- Claim C6 witness: with a concrete behaviour whose install step exits
with code 1, the deploy answers 500 with the step error and the build
command is never spawned. -/
theorem c6_sequencer_witness :
    (deploy ("u".data) ("b".data) "id" 1 2 3 4 installFails []).2.2.1 =
      { status := 500, success := false, error := some (exitMessage 1) } ∧
    ("npm run build".data) ∉
      (deploy ("u".data) ("b".data) "id" 1 2 3 4 installFails []).2.1 := by
  have h := c6_sequencer ("u".data) ("b".data) "id" 1 2 3 4 installFails [] 3
    (exitMessage 1) (by decide)
  exact ⟨h.1, h.2.2.2 (by norm_num)⟩

lemma replaceFirst_not_contains (n l : List Char) (h : containsSeq n l = false) :
    replaceFirst n l = l := by
  induction l with
  | nil => rfl
  | cons c cs ih =>
    rw [containsSeq, Bool.or_eq_false_iff] at h
    have h1 : ¬ (n.isPrefixOf (c :: cs) = true) := by simp [h.1]
    rw [replaceFirst, if_neg h1, ih h.2]

/-- Claim C8 counterexample: for a URL whose final segment is the text
x.github.io — a segment that does not end in .git — the derived repository
name is xhub.io, not the unchanged segment: `.replace(".git", "")` removes
the first occurrence of the needle anywhere, not only a suffix.  The claim
that such segments are unchanged is therefore false. -/
theorem c8_counterexample :
    lastSegment ("https://github.com/u/x.github.io".data) = ("x.github.io".data) ∧
    dotGit.isSuffixOf (lastSegment ("https://github.com/u/x.github.io".data)) = false ∧
    repoName ("https://github.com/u/x.github.io".data) = ("xhub.io".data) ∧
    repoName ("https://github.com/u/x.github.io".data) ≠
      lastSegment ("https://github.com/u/x.github.io".data) := by
  refine ⟨by decide, by decide, by decide, by decide⟩

/-- Claim C8 (amended): the repository name is the final path segment of
the URL with the first occurrence of the substring .git removed, wherever
it occurs; in particular a final segment that does not contain .git at all
is unchanged. -/
theorem c8_amended (gitUrl : List Char) :
    repoName gitUrl = replaceFirst dotGit (lastSegment gitUrl) ∧
    (containsSeq dotGit (lastSegment gitUrl) = false →
      repoName gitUrl = lastSegment gitUrl) := by
  refine ⟨rfl, fun h => ?_⟩
  rw [repoName, replaceFirst_not_contains dotGit (lastSegment gitUrl) h]

/-- Claim C8 witness: a URL whose final segment has no .git substring
keeps its segment unchanged. -/
theorem c8_amended_witness :
    repoName ("https://h/repo".data) = lastSegment ("https://h/repo".data) :=
  (c8_amended ("https://h/repo".data)).2 (by decide)

lemma takeWhile_all_append (p : Char → Bool) (xs : List Char) (y : Char) (ys : List Char)
    (hxs : ∀ x ∈ xs, p x = true) (hy : p y = false) :
    (xs ++ y :: ys).takeWhile p = xs ∧ (xs ++ y :: ys).dropWhile p = y :: ys := by
  induction xs with
  | nil =>
    constructor
    · rw [List.nil_append]
      exact List.takeWhile_cons_of_neg (by simp [hy])
    · rw [List.nil_append]
      exact List.dropWhile_cons_of_neg (by simp [hy])
  | cons x xs ih =>
    have hx : p x = true := hxs x (List.mem_cons_self x xs)
    have hxs2 : ∀ z ∈ xs, p z = true := fun z hz => hxs z (List.mem_cons_of_mem x hz)
    obtain ⟨iht, ihd⟩ := ih hxs2
    constructor
    · rw [List.cons_append, List.takeWhile_cons_of_pos hx, iht]
    · rw [List.cons_append, List.dropWhile_cons_of_pos hx, ihd]

lemma fracHere_iff (l : List Char) :
    fracHere l = true ↔
      ∃ d1 d2 b, l = '[' :: (d1 ++ '/' :: (d2 ++ ']' :: b)) ∧ d1 ≠ [] ∧ d2 ≠ [] ∧
        (∀ c ∈ d1, c.isDigit = true) ∧ (∀ c ∈ d2, c.isDigit = true) := by
  constructor
  · intro h
    rw [fracHere] at h
    simp only [Bool.and_eq_true, beq_iff_eq, Bool.not_eq_true', List.isEmpty_eq_false] at h
    obtain ⟨hh, ⟨hd1, hs⟩, hd2, hcl⟩ := h
    cases l with
    | nil => exact absurd hh (by simp)
    | cons c r =>
      rw [List.head?_cons, Option.some_inj] at hh
      subst hh
      rw [List.tail_cons] at hd1 hs hd2 hcl
      rcases hr1 : (r.dropWhile Char.isDigit) with _ | ⟨c1, r2⟩
      · rw [hr1] at hs
        exact absurd hs (by simp)
      · rw [hr1] at hs hd2 hcl
        rw [List.head?_cons, Option.some_inj] at hs
        subst hs
        rw [List.tail_cons] at hd2 hcl
        rcases hr3 : (r2.dropWhile Char.isDigit) with _ | ⟨c3, b⟩
        · rw [hr3] at hcl
          exact absurd hcl (by simp)
        · rw [hr3] at hcl
          rw [List.head?_cons, Option.some_inj] at hcl
          subst hcl
          refine ⟨r.takeWhile Char.isDigit, r2.takeWhile Char.isDigit, b, ?_, hd1, hd2,
            fun c hc => List.mem_takeWhile_imp hc, fun c hc => List.mem_takeWhile_imp hc⟩
          have e1 : r = r.takeWhile Char.isDigit ++ r.dropWhile Char.isDigit :=
            (List.takeWhile_append_dropWhile Char.isDigit r).symm
          have e2 : r2 = r2.takeWhile Char.isDigit ++ r2.dropWhile Char.isDigit :=
            (List.takeWhile_append_dropWhile Char.isDigit r2).symm
          rw [hr3] at e2
          rw [hr1, e2] at e1
          conv_lhs => rw [e1]
  · rintro ⟨d1, d2, b, rfl, hd1, hd2, hald1, hald2⟩
    have h1 := takeWhile_all_append Char.isDigit d1 '/' (d2 ++ ']' :: b) hald1 (by decide)
    have h2 := takeWhile_all_append Char.isDigit d2 ']' b hald2 (by decide)
    rw [fracHere]
    simp only [List.head?_cons, List.tail_cons, h1.1, h1.2, h2.1, h2.2]
    simp [hd1, hd2]

lemma hasFrac_iff (l : List Char) :
    hasFrac l = true ↔
      ∃ a d1 d2 b, l = a ++ ('[' :: (d1 ++ '/' :: (d2 ++ ']' :: b))) ∧ d1 ≠ [] ∧
        d2 ≠ [] ∧ (∀ c ∈ d1, c.isDigit = true) ∧ (∀ c ∈ d2, c.isDigit = true) := by
  induction l with
  | nil =>
    simp only [hasFrac]
    constructor
    · intro h
      exact absurd h (by simp)
    · rintro ⟨a, d1, d2, b, hab, _, _, _, _⟩
      exact absurd hab.symm (by simp)
  | cons c cs ih =>
    rw [hasFrac, Bool.or_eq_true]
    constructor
    · rintro (hp | hc)
      · obtain ⟨d1, d2, b, heq, hn1, hn2, h3, h4⟩ := (fracHere_iff (c :: cs)).mp hp
        exact ⟨[], d1, d2, b, by rw [List.nil_append, heq], hn1, hn2, h3, h4⟩
      · obtain ⟨a, d1, d2, b, heq, hn1, hn2, h3, h4⟩ := ih.mp hc
        exact ⟨c :: a, d1, d2, b, by rw [heq, List.cons_append], hn1, hn2, h3, h4⟩
    · rintro ⟨a, d1, d2, b, heq, hn1, hn2, h3, h4⟩
      cases a with
      | nil =>
        left
        rw [List.nil_append] at heq
        exact (fracHere_iff (c :: cs)).mpr ⟨d1, d2, b, heq, hn1, hn2, h3, h4⟩
      | cons a0 a2 =>
        right
        rw [List.cons_append] at heq
        injection heq with hc0 hcs
        exact ih.mpr ⟨a2, d1, d2, b, hcs, hn1, hn2, h3, h4⟩

/-- Claim C4: the output classifier returns true exactly when the line
contains a filled or empty progress-block glyph, a percent character, the
three-dot literal, or a bracketed fraction of digits; together with the
four concrete evaluations of the truth table. -/
theorem c4_classifier (line : List Char) :
    (classify line = true ↔ ProgressSpec line) ∧
    classify ("50%".data) = true ∧
    classify ("[3/10] step".data) = true ∧
    classify ("Cloning into \x27x\x27...".data) = true ∧
    classify ("Build finished".data) = false := by
  refine ⟨?_, by decide, by decide, by decide, by decide⟩
  rw [classify, ProgressSpec]
  simp only [Bool.or_eq_true]
  rw [containsSeq_iff, containsSeq_iff, containsSeq_iff, containsSeq_iff, hasFrac_iff]
  rw [ContainsSub, ContainsSub, ContainsSub, ContainsSub]
  rw [or_assoc, or_assoc, or_assoc]
